import Mathlib

/-!
Verification of the training orchestration in `helpers.py` of the
self-learning-machines repository (equilibrium-propagation training of
analog networks).

The source file `helpers.py` contains the training loop `train`.  The
network classes (`LinearNetwork` / `TransistorNetwork` from `spice_net`)
are external collaborators: following the specification, a network exposes
node count, an ordered edge list (each edge a scalar parameter attached to
an ordered pair of node indices), output node-pairs, and the operations
`solve`, `predict` and `update`.  Node potentials and parameters are
modelled as rationals.  The mutable state visible to the loop (edge
values, the caller's input/target arrays, and an event trace used to state
ordering properties) is threaded explicitly.
-/

set_option autoImplicit false

namespace SpiceTrain

/-- Modelled from the spec: the static part of a physical network
(`NetworkInterface`, spec section 6).  `nNodes` is the node count,
`edgeEnds` the ordered endpoint node-index pairs of the trainable edges,
`outPairs` the ordered output node-pairs, and `solveFn` the opaque
relaxation oracle: given the current edge values, an input clamp, and an
optional output clamp, it returns an equilibrium state (a vector of node
potentials).  The oracle is deterministic for fixed edge values and
inputs, as the spec requires. -/
structure Network where
  nNodes : Nat
  edgeEnds : List (Nat × Nat)
  outPairs : List (Nat × Nat)
  solveFn : List ℚ → List ℚ → Option (List ℚ) → List ℚ

/-- Observable events of one training run: each equilibrium solve records
the edge values it observes, its input clamp and its optional output
clamp; each update records the per-edge deltas applied. -/
inductive Ev where
  | solveEv (edges : List ℚ) (x : List ℚ) (clamp : Option (List ℚ))
  | updateEv (deltas : List ℚ)

/-- Returns true exactly on solve events. -/
def isSolveEv : Ev → Bool
  | .solveEv _ _ _ => true
  | .updateEv _ => false

/-- The mutable state threaded through training: the network's edge
values (the single piece of shared mutable state), the caller's input and
target arrays (heap objects passed by reference to `train`), and the
event trace. -/
structure TState where
  edges : List ℚ
  xsArr : List (List ℚ)
  ysArr : List (List ℚ)
  trace : List Ev

/-- Modelled from the spec: `net.solve(x, clamp)` relaxes to equilibrium;
it reads the edge values and mutates nothing but the trace. -/
def Network.solveOp (net : Network) (s : TState) (x : List ℚ)
    (clamp : Option (List ℚ)) : List ℚ × TState :=
  (net.solveFn s.edges x clamp,
   { s with trace := s.trace ++ [Ev.solveEv s.edges x clamp] })

/-- Reading the output node-pair potential differences out of an
equilibrium state (spec section 6, `predict`). -/
def readOuts (net : Network) (st : List ℚ) : List ℚ :=
  net.outPairs.map (fun p => st.getD p.1 0 - st.getD p.2 0)

/-- Modelled from the spec: `net.predict` on a single sample solves the
free phase and reads output node-pair differences. -/
def Network.predictOne (net : Network) (s : TState) (x : List ℚ) :
    List ℚ × TState :=
  let r := net.solveOp s x none
  (readOuts net r.1, r.2)

/-- Modelled from the spec: `net.predict(xs)` solves (free phase) for
each sample in order and reads the outputs. -/
def Network.predictBatch (net : Network) : TState → List (List ℚ) →
    List (List ℚ) × TState
  | s, [] => ([], s)
  | s, x :: rest =>
    let r := net.predictOne s x
    let rs := net.predictBatch r.2 rest
    (r.1 :: rs.1, rs.2)

/-- Modelled from the spec: `net.update(deltas)` applies the per-edge
deltas to all trainable edges in place. -/
def Network.updateOp (net : Network) (s : TState) (deltas : List ℚ) : TState :=
  { s with edges := List.zipWith (fun v d => v + d) s.edges deltas,
           trace := s.trace ++ [Ev.updateEv deltas] }

/-- Endpoint-index list `e1` (helpers.py lines 72-76: first node name of
each edge's circuit element). -/
def Network.e1 (net : Network) : List Nat :=
  net.edgeEnds.map Prod.fst

/-- Endpoint-index list `e2` (helpers.py lines 72-76: second node name of
each edge's circuit element). -/
def Network.e2 (net : Network) : List Nat :=
  net.edgeEnds.map Prod.snd

/-- `np.tile(v, [n, 1])`: a matrix of `n` copies of the row `v`
(helpers.py lines 88-89). -/
def npTile (v : List ℚ) (n : Nat) : List (List ℚ) :=
  List.replicate n v

/-- Elementwise matrix subtraction (numpy `A - B` on equal shapes). -/
def matSub (A B : List (List ℚ)) : List (List ℚ) :=
  List.zipWith (List.zipWith (fun a b => a - b)) A B

/-- Elementwise matrix square (numpy `A**2`). -/
def matSq (A : List (List ℚ)) : List (List ℚ) :=
  A.map (fun r => r.map (fun t => t ^ 2))

/-- Scalar multiple of a matrix (numpy `c * A`). -/
def matScale (c : ℚ) (A : List (List ℚ)) : List (List ℚ) :=
  A.map (fun r => r.map (fun t => c * t))

/-- Matrix transpose for rectangular matrices (numpy `A.T`): entry
`(j, i)` of the result is entry `(i, j)` of `A`. -/
def matT (A : List (List ℚ)) : List (List ℚ) :=
  (List.range (A.headD []).length).map (fun j => A.map (fun r => r.getD j 0))

/-- Integer-array indexing `M[e1, e2]` (helpers.py line 96): one scalar
per edge, taken at the edge's endpoint pair. -/
def fancyIndex (M : List (List ℚ)) (e1 e2 : List Nat) : List ℚ :=
  List.zipWith (fun a b => (M.getD a []).getD b 0) e1 e2

/-- The contrastive update computation (helpers.py lines 88-96): tile each
equilibrium state into an `n × n` matrix, subtract the transpose to get
all pairwise potential differences, square, contrast the clamped phase
against the free phase, scale by `-gamma`, and subselect the edge
endpoint pairs. -/
def contrastiveUpdates (gamma : ℚ) (nNodes : Nat) (free clamped : List ℚ)
    (e1 e2 : List Nat) : List ℚ :=
  let free_rep := npTile free nNodes
  let clamped_rep := npTile clamped nNodes
  let delta_free := matSub free_rep (matT free_rep)
  let delta_clamped := matSub clamped_rep (matT clamped_rep)
  let update := matScale (-gamma) (matSub (matSq delta_clamped) (matSq delta_free))
  fancyIndex update e1 e2

/-- The values a single pass of the body of the sample loop produces. -/
structure SampleResult where
  free : List ℚ
  nudges : List ℚ
  clamped : List ℚ
  tu : List ℚ
  state : TState

/-- Per-sample body of the training loop (helpers.py lines 84-98): free
solve, nudge target `eta*y + (1-eta)*net.predict(x)`, clamped solve,
contrastive update restricted to the trainable edges, applied through a
single update call.  (`nudges.reshape(y.shape)` in the source is a
content-preserving shape adjustment and is not modelled.) -/
def trainSample (net : Network) (gamma eta : ℚ) (s : TState)
    (x y : List ℚ) : SampleResult :=
  let fr := net.solveOp s x none
  let pr := net.predictOne fr.2 x
  let nudges := List.zipWith (fun yi pi => eta * yi + (1 - eta) * pi) y pr.1
  let cl := net.solveOp pr.2 x (some nudges)
  let tu := contrastiveUpdates gamma net.nNodes fr.1 cl.1 net.e1 net.e2
  { free := fr.1, nudges := nudges, clamped := cl.1, tu := tu,
    state := net.updateOp cl.2 tu }

/-- The network state after a list of samples has been processed in
order, each sample's solves running on the state left by the previous
sample's update. -/
def afterSamples (net : Network) (gamma eta : ℚ) :
    TState → List (List ℚ × List ℚ) → TState
  | s, [] => s
  | s, p :: rest => afterSamples net gamma eta (trainSample net gamma eta s p.1 p.2).state rest

/-- The history buffers `updates` and `weights` (helpers.py lines
63-64). -/
structure Bufs where
  updates : List (List (List ℚ))
  weights : List (List (List ℚ))

/-- Writing one cell `M[k, j] = v` of a 3-dimensional history buffer. -/
def setCell (M : List (List (List ℚ))) (k j : Nat) (v : List ℚ) :
    List (List (List ℚ)) :=
  M.set k ((M.getD k []).set j v)

/-- The inner sample loop (helpers.py lines 83-103): process the
(possibly shuffled) sample pairs in order, and when the epoch is a
checkpoint (`logIdx = some k`), record each sample's update vector and
post-update edge values. -/
def sampleLoop (net : Network) (gamma eta : ℚ) (logIdx : Option Nat) :
    TState → Bufs → Nat → List (List ℚ × List ℚ) → TState × Bufs
  | s, bufs, _, [] => (s, bufs)
  | s, bufs, j, p :: rest =>
    let r := trainSample net gamma eta s p.1 p.2
    let bufs' := match logIdx with
      | none => bufs
      | some k => { updates := setCell bufs.updates k j r.tu,
                    weights := setCell bufs.weights (k+1) j r.state.edges }
    sampleLoop net gamma eta logIdx r.state bufs' (j+1) rest

/-- `xs[perm]` for a permutation index array (helpers.py lines 81-82). -/
def applyPerm (p : List Nat) (l : List (List ℚ)) : List (List ℚ) :=
  p.map (fun k => l.getD k [])

/-- Epoch-start shuffling (helpers.py lines 79-82): when `shuffle` is
set, one permutation is drawn and applied jointly to `xs` and `ys`;
otherwise both are left as they are. -/
def shuffleStep (shuffle : Bool) (p : List Nat) (xs ys : List (List ℚ)) :
    List (List ℚ) × List (List ℚ) :=
  if shuffle then (applyPerm p xs, applyPerm p ys) else (xs, ys)

/-- Mean-squared error `np.mean((ys - pred)**2)` over all entries
(helpers.py lines 68 and 106). -/
def mse (ys pred : List (List ℚ)) : ℚ :=
  let d := matSq (matSub ys pred)
  (d.map List.sum).sum / (((d.map List.length).sum : Nat) : ℚ)

/-- One epoch's work on already-shuffled data (helpers.py lines 83-106):
run the sample loop over `zip xs ys` and recompute the batch loss into
slot `i+1`.  The progress print at line 108 is an informational side
effect and is not modelled. -/
def epochBody (net : Network) (gamma eta : ℚ) (logIdx : Option Nat)
    (xs ys : List (List ℚ)) (i : Nat) (s : TState) (loss : List ℚ)
    (bufs : Bufs) : TState × List ℚ × Bufs :=
  let sb := sampleLoop net gamma eta logIdx s bufs 0 (List.zip xs ys)
  let pr := net.predictBatch sb.1 xs
  (pr.2, loss.set (i+1) (mse ys pr.1), sb.2)

/-- The epoch loop (helpers.py lines 78-108): per epoch, shuffle, run the
epoch body, and recurse on the shuffled data.  `perms` models the stream
of random permutations drawn by `np.random.permutation`, one per
epoch. -/
def epochLoop (net : Network) (gamma eta : ℚ) (shuffle : Bool)
    (perms : Nat → List Nat) (logSteps : List Nat) :
    Nat → Nat → List (List ℚ) → List (List ℚ) → TState → List ℚ → Bufs →
    TState × List ℚ × Bufs
  | _, 0, _, _, s, loss, bufs => (s, loss, bufs)
  | i, rem+1, xs, ys, s, loss, bufs =>
    let sh := shuffleStep shuffle (perms i) xs ys
    let logIdx := if i ∈ logSteps then some (List.indexOf i logSteps) else none
    let eb := epochBody net gamma eta logIdx sh.1 sh.2 i s loss bufs
    epochLoop net gamma eta shuffle perms logSteps (i+1) rem sh.1 sh.2 eb.1 eb.2.1 eb.2.2

/-- The specification's reference epoch loop for the unshuffled case:
every epoch processes `List.zip xs ys` in the original input order. -/
def epochLoopFixed (net : Network) (gamma eta : ℚ) (logSteps : List Nat) :
    Nat → Nat → List (List ℚ) → List (List ℚ) → TState → List ℚ → Bufs →
    TState × List ℚ × Bufs
  | _, 0, _, _, s, loss, bufs => (s, loss, bufs)
  | i, rem+1, xs, ys, s, loss, bufs =>
    let logIdx := if i ∈ logSteps then some (List.indexOf i logSteps) else none
    let eb := epochBody net gamma eta logIdx xs ys i s loss bufs
    epochLoopFixed net gamma eta logSteps (i+1) rem xs ys eb.1 eb.2.1 eb.2.2

/-- The training loop `train` (helpers.py lines 35-110).  The caller's
`xs` and `ys` live in the threaded state (they are heap objects passed by
reference); `perms` models the random stream; `l` is the regularization
parameter of the source signature.  Returns, as the source does, the
network (final state), the loss history, the update history and the
weight history.  The history buffers are allocated with `np.empty` /
`np.zeros` in the source; uninitialized `np.empty` cells are modelled as
zeros (no claim depends on their contents). -/
def train (net : Network) (s : TState) (epochs : Nat) (gamma eta l : ℚ)
    (logSteps? : Option (List Nat)) (shuffle : Bool) (perms : Nat → List Nat) :
    TState × List ℚ × List (List (List ℚ)) × List (List (List ℚ)) :=
  let xs := s.xsArr
  let ys := s.ysArr
  let logSteps := logSteps?.getD (List.range epochs)
  let nEdges := net.edgeEnds.length
  let nSamples := xs.length
  let loss0 := List.replicate (epochs + 1) (0 : ℚ)
  let weights0 := List.replicate (logSteps.length + 1)
      (List.replicate nSamples (List.replicate nEdges (0 : ℚ)))
  let updates0 := List.replicate logSteps.length
      (List.replicate nSamples (List.replicate nEdges (0 : ℚ)))
  let pr := net.predictBatch s xs
  let loss1 := loss0.set 0 (mse ys pr.1)
  let weights1 := weights0.set 0 (List.replicate nSamples pr.2.edges)
  let r := epochLoop net gamma eta shuffle perms logSteps 0 epochs xs ys pr.2 loss1
      { updates := updates0, weights := weights1 }
  (r.1, r.2.1, r.2.2.updates, r.2.2.weights)

/-- Outer shape predicate for a 3-dimensional history buffer:
`a` rows, each of `b` cells, each a vector of length `c`. -/
def MatShape (M : List (List (List ℚ))) (a b c : Nat) : Prop :=
  M.length = a ∧ ∀ r ∈ M, r.length = b ∧ ∀ v ∈ r, v.length = c

/-- A concrete two-node, single-edge network with a constant relaxation
oracle, used to instantiate the theorems below. -/
def demoNet : Network :=
  { nNodes := 2, edgeEnds := [(0, 1)], outPairs := [(0, 1)],
    solveFn := fun _ _ _ => [1, 2] }

/-- A concrete starting state for `demoNet`: one edge of value 5, two
input samples, two targets, empty trace. -/
def demoState : TState :=
  { edges := [5], xsArr := [[1], [2]], ysArr := [[3], [4]], trace := [] }

/-- A concrete starting state whose target array is shorter than its
input array (a configuration the specification calls invalid). -/
def demoStateMismatch : TState :=
  { edges := [5], xsArr := [[1], [2]], ysArr := [[3]], trace := [] }

/-- A trivial permutation stream. -/
def demoPerms : Nat → List Nat := fun _ => [1, 0]

/-- A concrete two-sample batch for `demoNet`. -/
def demoPairs : List (List ℚ × List ℚ) := [([1], [3]), ([2], [4])]

theorem getD_map_lt {α β : Type} (f : α → β) (d : β) (d' : α) (l : List α)
    (k : Nat) (h : k < l.length) : (l.map f).getD k d = f (l.getD k d') := by
  rw [List.getD_eq_getElem _ _ (by simpa using h), List.getD_eq_getElem _ _ h]
  simp

theorem getD_zipWith_lt {α β γ : Type} (f : α → β → γ) (d : γ) (d1 : α) (d2 : β)
    (l1 : List α) (l2 : List β) (k : Nat) (h1 : k < l1.length) (h2 : k < l2.length) :
    (List.zipWith f l1 l2).getD k d = f (l1.getD k d1) (l2.getD k d2) := by
  induction l1 generalizing l2 k with
  | nil => simp at h1
  | cons a l ih =>
    cases l2 with
    | nil => simp at h2
    | cons b l2 =>
      cases k with
      | zero => rfl
      | succ k => exact ih l2 k (Nat.lt_of_succ_lt_succ h1) (Nat.lt_of_succ_lt_succ h2)

theorem getD_replicate_lt {α : Type} (v d : α) (n k : Nat) (h : k < n) :
    (List.replicate n v).getD k d = v := by
  induction n generalizing k with
  | zero => omega
  | succ n ih =>
    cases k with
    | zero => rfl
    | succ k => exact ih k (by omega)

theorem getD_range_lt (n k : Nat) (h : k < n) : (List.range n).getD k 0 = k := by
  rw [List.getD_eq_getElem _ _ (by simpa using h)]
  simp

theorem npTile_headD (v : List ℚ) (n : Nat) (h : 0 < n) :
    (npTile v n).headD [] = v := by
  cases n with
  | zero => omega
  | succ n => rfl

theorem matT_npTile_row (v : List ℚ) (n a : Nat) (hn : 0 < n) (ha : a < v.length) :
    (matT (npTile v n)).getD a [] = List.replicate n (v.getD a 0) := by
  unfold matT
  rw [npTile_headD v n hn]
  rw [getD_map_lt _ _ 0 _ a (by simpa using ha), getD_range_lt _ _ ha]
  simp [npTile]

theorem matT_npTile_length (v : List ℚ) (n : Nat) (hn : 0 < n) :
    (matT (npTile v n)).length = v.length := by
  unfold matT
  rw [npTile_headD v n hn]
  simp

theorem matSub_length (A B : List (List ℚ)) :
    (matSub A B).length = min A.length B.length :=
  List.length_zipWith _ _ _

theorem matSub_getD (A B : List (List ℚ)) (a : Nat) (hA : a < A.length)
    (hB : a < B.length) :
    (matSub A B).getD a []
      = List.zipWith (fun p q => p - q) (A.getD a []) (B.getD a []) := by
  unfold matSub
  rw [getD_zipWith_lt _ _ [] [] _ _ a hA hB]

theorem matSub_entry (A B : List (List ℚ)) (a b : Nat) (hA : a < A.length)
    (hB : a < B.length) (hbA : b < (A.getD a []).length)
    (hbB : b < (B.getD a []).length) :
    ((matSub A B).getD a []).getD b 0
      = (A.getD a []).getD b 0 - (B.getD a []).getD b 0 := by
  rw [matSub_getD A B a hA hB, getD_zipWith_lt _ _ 0 0 _ _ b hbA hbB]

theorem matSub_row_length (A B : List (List ℚ)) (a : Nat) (hA : a < A.length)
    (hB : a < B.length) :
    ((matSub A B).getD a []).length = min (A.getD a []).length (B.getD a []).length := by
  rw [matSub_getD A B a hA hB, List.length_zipWith]

theorem matSq_length (A : List (List ℚ)) : (matSq A).length = A.length :=
  List.length_map _ _

theorem matSq_row_length (A : List (List ℚ)) (a : Nat) (hA : a < A.length) :
    ((matSq A).getD a []).length = (A.getD a []).length := by
  unfold matSq
  rw [getD_map_lt _ _ [] _ a hA, List.length_map]

theorem matSq_entry (A : List (List ℚ)) (a b : Nat) (hA : a < A.length)
    (hb : b < (A.getD a []).length) :
    ((matSq A).getD a []).getD b 0 = ((A.getD a []).getD b 0) ^ 2 := by
  unfold matSq
  rw [getD_map_lt _ _ [] _ a hA, getD_map_lt _ _ 0 _ b hb]

theorem matScale_length (c : ℚ) (A : List (List ℚ)) :
    (matScale c A).length = A.length :=
  List.length_map _ _

theorem matScale_entry (c : ℚ) (A : List (List ℚ)) (a b : Nat) (hA : a < A.length)
    (hb : b < (A.getD a []).length) :
    ((matScale c A).getD a []).getD b 0 = c * ((A.getD a []).getD b 0) := by
  unfold matScale
  rw [getD_map_lt _ _ [] _ a hA, getD_map_lt _ _ 0 _ b hb]

theorem deltaMat_row (v : List ℚ) (n a : Nat) (hv : v.length = n) (ha : a < n) :
    (matSub (npTile v n) (matT (npTile v n))).getD a []
      = List.zipWith (fun p q => p - q) v (List.replicate n (v.getD a 0)) := by
  have hn : 0 < n := Nat.lt_of_le_of_lt (Nat.zero_le a) ha
  rw [matSub_getD _ _ a (by simpa [npTile] using ha)
    (by rw [matT_npTile_length v n hn, hv]; exact ha)]
  rw [matT_npTile_row v n a hn (hv ▸ ha)]
  congr 1
  exact getD_replicate_lt v [] n a ha

theorem deltaMat_entry (v : List ℚ) (n a b : Nat) (hv : v.length = n)
    (ha : a < n) (hb : b < n) :
    ((matSub (npTile v n) (matT (npTile v n))).getD a []).getD b 0
      = v.getD b 0 - v.getD a 0 := by
  rw [deltaMat_row v n a hv ha]
  rw [getD_zipWith_lt _ _ 0 0 _ _ b (hv ▸ hb) (by simpa using hb)]
  rw [getD_replicate_lt _ _ n b hb]

theorem deltaMat_length (v : List ℚ) (n : Nat) (hv : v.length = n) (hn : 0 < n) :
    (matSub (npTile v n) (matT (npTile v n))).length = n := by
  rw [matSub_length, matT_npTile_length v n hn, hv]
  simp [npTile]

theorem deltaMat_row_length (v : List ℚ) (n a : Nat) (hv : v.length = n) (ha : a < n) :
    ((matSub (npTile v n) (matT (npTile v n))).getD a []).length = n := by
  rw [deltaMat_row v n a hv ha]
  rw [List.length_zipWith, hv]
  simp

theorem contrastiveUpdates_getD (gamma : ℚ) (n : Nat) (free clamped : List ℚ)
    (e1 e2 : List Nat) (k : Nat) (hk1 : k < e1.length) (hk2 : k < e2.length)
    (hf : free.length = n) (hc : clamped.length = n)
    (ha : e1.getD k 0 < n) (hb : e2.getD k 0 < n) :
    (contrastiveUpdates gamma n free clamped e1 e2).getD k 0
      = -gamma * ((clamped.getD (e2.getD k 0) 0 - clamped.getD (e1.getD k 0) 0) ^ 2
          - (free.getD (e2.getD k 0) 0 - free.getD (e1.getD k 0) 0) ^ 2) := by
  set a := e1.getD k 0 with hadef
  set b := e2.getD k 0 with hbdef
  have hn : 0 < n := Nat.lt_of_le_of_lt (Nat.zero_le a) ha
  set Df := matSub (npTile free n) (matT (npTile free n)) with hDf
  set Dc := matSub (npTile clamped n) (matT (npTile clamped n)) with hDc
  have hDfl : Df.length = n := deltaMat_length free n hf hn
  have hDcl : Dc.length = n := deltaMat_length clamped n hc hn
  have hDfr : (Df.getD a []).length = n := deltaMat_row_length free n a hf ha
  have hDcr : (Dc.getD a []).length = n := deltaMat_row_length clamped n a hc ha
  have hSql : ∀ D : List (List ℚ), D.length = n → (matSq D).length = n := by
    intro D hD; rw [matSq_length]; exact hD
  have hSqr : ∀ D : List (List ℚ), D.length = n → (D.getD a []).length = n →
      ((matSq D).getD a []).length = n := by
    intro D hD hDr
    rw [matSq_row_length D a (by rw [hD]; exact ha)]; exact hDr
  have hU0l : (matSub (matSq Dc) (matSq Df)).length = n := by
    rw [matSub_length, hSql Dc hDcl, hSql Df hDfl]; simp
  have hU0r : ((matSub (matSq Dc) (matSq Df)).getD a []).length = n := by
    rw [matSub_row_length _ _ a (by rw [hSql Dc hDcl]; exact ha)
      (by rw [hSql Df hDfl]; exact ha)]
    rw [hSqr Dc hDcl hDcr, hSqr Df hDfl hDfr]; simp
  unfold contrastiveUpdates fancyIndex
  rw [getD_zipWith_lt _ _ 0 0 _ _ k hk1 hk2, ← hadef, ← hbdef, ← hDf, ← hDc]
  rw [matScale_entry _ _ a b (by rw [hU0l]; exact ha) (by rw [hU0r]; exact hb)]
  rw [matSub_entry _ _ a b (by rw [hSql Dc hDcl]; exact ha)
    (by rw [hSql Df hDfl]; exact ha)
    (by rw [hSqr Dc hDcl hDcr]; exact hb) (by rw [hSqr Df hDfl hDfr]; exact hb)]
  rw [matSq_entry Dc a b (by rw [hDcl]; exact ha) (by rw [hDcr]; exact hb)]
  rw [matSq_entry Df a b (by rw [hDfl]; exact ha) (by rw [hDfr]; exact hb)]
  rw [deltaMat_entry clamped n a b hc ha hb, deltaMat_entry free n a b hf ha hb]

theorem contrastiveUpdates_length (gamma : ℚ) (n : Nat) (free clamped : List ℚ)
    (e1 e2 : List Nat) :
    (contrastiveUpdates gamma n free clamped e1 e2).length = min e1.length e2.length := by
  unfold contrastiveUpdates fancyIndex
  exact List.length_zipWith _ _ _

theorem trainSample_free (net : Network) (gamma eta : ℚ) (s : TState) (x y : List ℚ) :
    (trainSample net gamma eta s x y).free = net.solveFn s.edges x none := rfl

theorem trainSample_nudges (net : Network) (gamma eta : ℚ) (s : TState) (x y : List ℚ) :
    (trainSample net gamma eta s x y).nudges
      = List.zipWith (fun yi pi => eta * yi + (1 - eta) * pi) y
          (readOuts net (net.solveFn s.edges x none)) := rfl

theorem trainSample_clamped (net : Network) (gamma eta : ℚ) (s : TState) (x y : List ℚ) :
    (trainSample net gamma eta s x y).clamped
      = net.solveFn s.edges x (some (trainSample net gamma eta s x y).nudges) := rfl

theorem trainSample_tu (net : Network) (gamma eta : ℚ) (s : TState) (x y : List ℚ) :
    (trainSample net gamma eta s x y).tu
      = contrastiveUpdates gamma net.nNodes (trainSample net gamma eta s x y).free
          (trainSample net gamma eta s x y).clamped net.e1 net.e2 := rfl

theorem trainSample_state (net : Network) (gamma eta : ℚ) (s : TState) (x y : List ℚ) :
    (trainSample net gamma eta s x y).state =
      { edges := List.zipWith (fun v d => v + d) s.edges (trainSample net gamma eta s x y).tu,
        xsArr := s.xsArr, ysArr := s.ysArr,
        trace := s.trace ++ [Ev.solveEv s.edges x none, Ev.solveEv s.edges x none,
          Ev.solveEv s.edges x (some (trainSample net gamma eta s x y).nudges),
          Ev.updateEv (trainSample net gamma eta s x y).tu] } := by
  simp [trainSample, Network.solveOp, Network.predictOne, Network.updateOp]

/-- Claim C1: for every sample processed by train, the per-edge update
equals `-gamma * ((clamped[a]-clamped[b])^2 - (free[a]-free[b])^2)` where
`(a, b)` are that edge's endpoint node indices and `free` and `clamped`
are the two equilibrium states returned for that sample; the deltas are
produced in edge order, one scalar per trainable edge, and applied to the
network through a single update call. -/
theorem c1_update_rule (net : Network) (gamma eta : ℚ) (s : TState) (x y : List ℚ)
    (k a b : Nat) (hk : k < net.edgeEnds.length)
    (hab : net.edgeEnds.getD k (0, 0) = (a, b))
    (ha : a < net.nNodes) (hb : b < net.nNodes)
    (hf : (trainSample net gamma eta s x y).free.length = net.nNodes)
    (hc : (trainSample net gamma eta s x y).clamped.length = net.nNodes) :
    (trainSample net gamma eta s x y).tu.getD k 0
      = -gamma * (((trainSample net gamma eta s x y).clamped.getD a 0
            - (trainSample net gamma eta s x y).clamped.getD b 0) ^ 2
          - ((trainSample net gamma eta s x y).free.getD a 0
            - (trainSample net gamma eta s x y).free.getD b 0) ^ 2)
    ∧ (trainSample net gamma eta s x y).tu.length = net.edgeEnds.length
    ∧ (trainSample net gamma eta s x y).state.trace
        = s.trace ++ [Ev.solveEv s.edges x none, Ev.solveEv s.edges x none,
            Ev.solveEv s.edges x (some (trainSample net gamma eta s x y).nudges),
            Ev.updateEv (trainSample net gamma eta s x y).tu]
    ∧ (trainSample net gamma eta s x y).state.edges
        = List.zipWith (fun v d => v + d) s.edges (trainSample net gamma eta s x y).tu := by
  have he1k : net.e1.getD k 0 = a := by
    rw [Network.e1, getD_map_lt _ _ (0, 0) _ k hk, hab]
  have he2k : net.e2.getD k 0 = b := by
    rw [Network.e2, getD_map_lt _ _ (0, 0) _ k hk, hab]
  have hk1 : k < net.e1.length := by rw [Network.e1, List.length_map]; exact hk
  have hk2 : k < net.e2.length := by rw [Network.e2, List.length_map]; exact hk
  refine ⟨?_, ?_, ?_, ?_⟩
  · rw [trainSample_tu]
    rw [contrastiveUpdates_getD gamma net.nNodes _ _ _ _ k hk1 hk2 hf hc
      (he1k ▸ ha) (he2k ▸ hb)]
    rw [he1k, he2k]
    ring
  · rw [trainSample_tu, contrastiveUpdates_length, Network.e1, Network.e2,
      List.length_map, List.length_map]
    simp
  · rw [trainSample_state]
  · rw [trainSample_state]

/-- Witness for C1 at the two-node single-edge demo network. -/
theorem c1_update_rule_witness :
    (trainSample demoNet 10 (1/10) demoState [1] [3]).tu.getD 0 0
      = -10 * (((trainSample demoNet 10 (1/10) demoState [1] [3]).clamped.getD 0 0
            - (trainSample demoNet 10 (1/10) demoState [1] [3]).clamped.getD 1 0) ^ 2
          - ((trainSample demoNet 10 (1/10) demoState [1] [3]).free.getD 0 0
            - (trainSample demoNet 10 (1/10) demoState [1] [3]).free.getD 1 0) ^ 2)
    ∧ (trainSample demoNet 10 (1/10) demoState [1] [3]).tu.length = demoNet.edgeEnds.length
    ∧ (trainSample demoNet 10 (1/10) demoState [1] [3]).state.trace
        = demoState.trace ++ [Ev.solveEv demoState.edges [1] none,
            Ev.solveEv demoState.edges [1] none,
            Ev.solveEv demoState.edges [1]
              (some (trainSample demoNet 10 (1/10) demoState [1] [3]).nudges),
            Ev.updateEv (trainSample demoNet 10 (1/10) demoState [1] [3]).tu]
    ∧ (trainSample demoNet 10 (1/10) demoState [1] [3]).state.edges
        = List.zipWith (fun v d => v + d) demoState.edges
            (trainSample demoNet 10 (1/10) demoState [1] [3]).tu :=
  c1_update_rule demoNet 10 (1/10) demoState [1] [3] 0 0 1 (by decide) (by decide)
    (by decide) (by decide) (by decide) (by decide)

/-- Claim C8 counterexample: on a concrete two-node network and a single
sample, the per-sample body of the training loop performs three
equilibrium solves, not two: the direct free-phase solve, the free-phase
solve performed inside `net.predict` while forming the nudge target, and
the clamped-phase solve. -/
theorem c8_counterexample :
    List.countP isSolveEv (trainSample demoNet 10 (1/10) demoState [1] [3]).state.trace = 3
    ∧ List.countP isSolveEv (trainSample demoNet 10 (1/10) demoState [1] [3]).state.trace ≠ 2 := by
  constructor
  · decide
  · decide

/-- Claim C8 (amended): every sample processed by the training loop
triggers exactly three equilibrium solves — one direct free-phase solve,
one free-phase solve performed inside `predict` to form the nudge target,
and one clamped-phase solve — followed by a single update call. -/
theorem c8_three_solves_per_sample (net : Network) (gamma eta : ℚ) (s : TState)
    (x y : List ℚ) :
    List.countP isSolveEv (trainSample net gamma eta s x y).state.trace
        = List.countP isSolveEv s.trace + 3
    ∧ ∃ nd tu, (trainSample net gamma eta s x y).state.trace
        = s.trace ++ [Ev.solveEv s.edges x none, Ev.solveEv s.edges x none,
            Ev.solveEv s.edges x (some nd), Ev.updateEv tu] := by
  constructor
  · rw [trainSample_state]
    simp [List.countP_append, List.countP_cons, isSolveEv]
  · exact ⟨_, _, by rw [trainSample_state]⟩

theorem zipWith_nudge_zero (y p : List ℚ) (h : y.length = p.length) :
    List.zipWith (fun yi pi => (0 : ℚ) * yi + (1 - 0) * pi) y p = p := by
  induction y generalizing p with
  | nil =>
    cases p with
    | nil => rfl
    | cons b q => simp at h
  | cons a yt ih =>
    cases p with
    | nil => simp at h
    | cons b q =>
      simp only [List.zipWith_cons_cons]
      rw [ih q (by simpa using h)]
      norm_num

theorem zipWith_nudge_one (y p : List ℚ) (h : y.length = p.length) :
    List.zipWith (fun yi pi => (1 : ℚ) * yi + (1 - 1) * pi) y p = y := by
  induction y generalizing p with
  | nil =>
    cases p with
    | nil => rfl
    | cons b q => simp at h
  | cons a yt ih =>
    cases p with
    | nil => simp at h
    | cons b q =>
      simp only [List.zipWith_cons_cons]
      rw [ih q (by simpa using h)]
      norm_num

/-- Claim C3: for every sample with input x and target y, the nudge
target passed to the clamped-phase solve equals
`eta*y + (1-eta)*predict(x)`; with `eta = 0` the nudge equals the
network's current free-phase prediction for x, and with `eta = 1` it
equals the target y exactly. -/
theorem c3_nudge_target (net : Network) (gamma eta : ℚ) (s : TState) (x y : List ℚ)
    (hl : y.length = (readOuts net (net.solveFn s.edges x none)).length) :
    (trainSample net gamma eta s x y).clamped
        = net.solveFn s.edges x
            (some (List.zipWith (fun yi pi => eta * yi + (1 - eta) * pi) y
              (readOuts net (net.solveFn s.edges x none))))
    ∧ (trainSample net gamma eta s x y).state.trace
        = s.trace ++ [Ev.solveEv s.edges x none, Ev.solveEv s.edges x none,
            Ev.solveEv s.edges x
              (some (List.zipWith (fun yi pi => eta * yi + (1 - eta) * pi) y
                (readOuts net (net.solveFn s.edges x none)))),
            Ev.updateEv (trainSample net gamma eta s x y).tu]
    ∧ (eta = 0 → (trainSample net gamma eta s x y).nudges
        = readOuts net (net.solveFn s.edges x none))
    ∧ (eta = 1 → (trainSample net gamma eta s x y).nudges = y) := by
  refine ⟨?_, ?_, ?_, ?_⟩
  · rw [trainSample_clamped, trainSample_nudges]
  · rw [trainSample_state, trainSample_nudges]
  · intro h0
    subst h0
    rw [trainSample_nudges]
    exact zipWith_nudge_zero y _ hl
  · intro h1
    subst h1
    rw [trainSample_nudges]
    exact zipWith_nudge_one y _ hl

/-- Witness for C3 at the demo network with `eta = 1`. -/
theorem c3_nudge_target_witness :
    (trainSample demoNet 10 1 demoState [1] [3]).clamped
        = demoNet.solveFn demoState.edges [1]
            (some (List.zipWith (fun yi pi => 1 * yi + (1 - 1) * pi) ([3] : List ℚ)
              (readOuts demoNet (demoNet.solveFn demoState.edges [1] none))))
    ∧ (trainSample demoNet 10 1 demoState [1] [3]).state.trace
        = demoState.trace ++ [Ev.solveEv demoState.edges [1] none,
            Ev.solveEv demoState.edges [1] none,
            Ev.solveEv demoState.edges [1]
              (some (List.zipWith (fun yi pi => 1 * yi + (1 - 1) * pi) ([3] : List ℚ)
                (readOuts demoNet (demoNet.solveFn demoState.edges [1] none)))),
            Ev.updateEv (trainSample demoNet 10 1 demoState [1] [3]).tu]
    ∧ ((1 : ℚ) = 0 → (trainSample demoNet 10 1 demoState [1] [3]).nudges
        = readOuts demoNet (demoNet.solveFn demoState.edges [1] none))
    ∧ ((1 : ℚ) = 1 → (trainSample demoNet 10 1 demoState [1] [3]).nudges = [3]) :=
  c3_nudge_target demoNet 10 1 demoState [1] [3] (by decide)

theorem afterSamples_append (net : Network) (gamma eta : ℚ) (s : TState)
    (l1 l2 : List (List ℚ × List ℚ)) :
    afterSamples net gamma eta s (l1 ++ l2)
      = afterSamples net gamma eta (afterSamples net gamma eta s l1) l2 := by
  induction l1 generalizing s with
  | nil => rfl
  | cons p t ih =>
    simp only [List.cons_append, afterSamples]
    exact ih _

theorem sampleLoop_state (net : Network) (gamma eta : ℚ) (logIdx : Option Nat)
    (pairs : List (List ℚ × List ℚ)) (s : TState) (bufs : Bufs) (j : Nat) :
    (sampleLoop net gamma eta logIdx s bufs j pairs).1
      = afterSamples net gamma eta s pairs := by
  induction pairs generalizing s bufs j with
  | nil => rfl
  | cons p t ih =>
    simp only [sampleLoop, afterSamples]
    exact ih _ _ _

theorem take_succ_getD {α : Type} (l : List α) (m : Nat) (d : α) (h : m < l.length) :
    l.take (m+1) = l.take m ++ [l.getD m d] := by
  rw [List.take_succ]
  congr 1
  rw [List.getElem?_eq_getElem h, List.getD_eq_getElem l d h]
  rfl

/-- Claim C2: within one epoch samples are processed strictly
sequentially: the sample loop's network state is the fold of the
per-sample body; the state in which sample `m` runs is exactly the state
left by sample `m-1`'s update; and every solve event of sample `jdx+1`
records the edge values of the state left by sample `jdx`'s update, never
an earlier snapshot. -/
theorem c2_sequential_updates (net : Network) (gamma eta : ℚ)
    (pairs : List (List ℚ × List ℚ)) (s : TState) (jdx : Nat)
    (h : jdx + 1 < pairs.length) :
    (∀ logIdx bufs j0, (sampleLoop net gamma eta logIdx s bufs j0 pairs).1
        = afterSamples net gamma eta s pairs)
    ∧ (∀ m, m < pairs.length → afterSamples net gamma eta s (pairs.take (m+1))
        = (trainSample net gamma eta (afterSamples net gamma eta s (pairs.take m))
            (pairs.getD m ([], [])).1 (pairs.getD m ([], [])).2).state)
    ∧ (∃ nd tu, (trainSample net gamma eta
          (afterSamples net gamma eta s (pairs.take (jdx+1)))
          (pairs.getD (jdx+1) ([], [])).1 (pairs.getD (jdx+1) ([], [])).2).state.trace
        = (afterSamples net gamma eta s (pairs.take (jdx+1))).trace
          ++ [Ev.solveEv (afterSamples net gamma eta s (pairs.take (jdx+1))).edges
                (pairs.getD (jdx+1) ([], [])).1 none,
              Ev.solveEv (afterSamples net gamma eta s (pairs.take (jdx+1))).edges
                (pairs.getD (jdx+1) ([], [])).1 none,
              Ev.solveEv (afterSamples net gamma eta s (pairs.take (jdx+1))).edges
                (pairs.getD (jdx+1) ([], [])).1 (some nd),
              Ev.updateEv tu]) := by
  refine ⟨fun logIdx bufs j0 => sampleLoop_state net gamma eta logIdx pairs s bufs j0,
    ?_, ?_⟩
  · intro m hm
    rw [take_succ_getD pairs m ([], []) hm, afterSamples_append]
    rfl
  · exact ⟨_, _, by rw [trainSample_state]⟩

/-- Witness for C2 on a concrete two-sample batch. -/
theorem c2_sequential_updates_witness :
    (∀ logIdx bufs j0, (sampleLoop demoNet 10 (1/10) logIdx demoState bufs j0 demoPairs).1
        = afterSamples demoNet 10 (1/10) demoState demoPairs)
    ∧ (∀ m, m < demoPairs.length
        → afterSamples demoNet 10 (1/10) demoState (demoPairs.take (m+1))
        = (trainSample demoNet 10 (1/10)
            (afterSamples demoNet 10 (1/10) demoState (demoPairs.take m))
            (demoPairs.getD m ([], [])).1 (demoPairs.getD m ([], [])).2).state)
    ∧ (∃ nd tu, (trainSample demoNet 10 (1/10)
          (afterSamples demoNet 10 (1/10) demoState (demoPairs.take 1))
          (demoPairs.getD 1 ([], [])).1 (demoPairs.getD 1 ([], [])).2).state.trace
        = (afterSamples demoNet 10 (1/10) demoState (demoPairs.take 1)).trace
          ++ [Ev.solveEv (afterSamples demoNet 10 (1/10) demoState (demoPairs.take 1)).edges
                (demoPairs.getD 1 ([], [])).1 none,
              Ev.solveEv (afterSamples demoNet 10 (1/10) demoState (demoPairs.take 1)).edges
                (demoPairs.getD 1 ([], [])).1 none,
              Ev.solveEv (afterSamples demoNet 10 (1/10) demoState (demoPairs.take 1)).edges
                (demoPairs.getD 1 ([], [])).1 (some nd),
              Ev.updateEv tu]) :=
  c2_sequential_updates demoNet 10 (1/10) demoPairs demoState 0 (by decide)

/-- Claim C9: the regularization parameter has no effect on train's
observable behavior: with all other arguments, the starting state, and
the permutation stream held equal, two runs with different values of `l`
return identical results (final state, loss, update and weight
histories). -/
theorem c9_l_has_no_effect (net : Network) (s : TState) (epochs : Nat)
    (gamma eta l1 l2 : ℚ) (logSteps? : Option (List Nat)) (shuffle : Bool)
    (perms : Nat → List Nat) :
    train net s epochs gamma eta l1 logSteps? shuffle perms
      = train net s epochs gamma eta l2 logSteps? shuffle perms := rfl

theorem predictBatch_state (net : Network) (xs : List (List ℚ)) (s : TState) :
    (net.predictBatch s xs).2
      = { edges := s.edges, xsArr := s.xsArr, ysArr := s.ysArr,
          trace := s.trace ++ xs.map (fun x => Ev.solveEv s.edges x none) } := by
  induction xs generalizing s with
  | nil => simp [Network.predictBatch]
  | cons x rest ih =>
    simp only [Network.predictBatch, Network.predictOne, Network.solveOp]
    rw [ih]
    simp

theorem sampleLoop_arrs (net : Network) (gamma eta : ℚ) (logIdx : Option Nat)
    (pairs : List (List ℚ × List ℚ)) (s : TState) (bufs : Bufs) (j : Nat) :
    (sampleLoop net gamma eta logIdx s bufs j pairs).1.xsArr = s.xsArr
    ∧ (sampleLoop net gamma eta logIdx s bufs j pairs).1.ysArr = s.ysArr := by
  induction pairs generalizing s bufs j with
  | nil => exact ⟨rfl, rfl⟩
  | cons p t ih =>
    simp only [sampleLoop]
    refine ⟨?_, ?_⟩
    · rw [(ih _ _ _).1, trainSample_state]
    · rw [(ih _ _ _).2, trainSample_state]

theorem epochBody_arrs (net : Network) (gamma eta : ℚ) (logIdx : Option Nat)
    (xs ys : List (List ℚ)) (i : Nat) (s : TState) (loss : List ℚ) (bufs : Bufs) :
    (epochBody net gamma eta logIdx xs ys i s loss bufs).1.xsArr = s.xsArr
    ∧ (epochBody net gamma eta logIdx xs ys i s loss bufs).1.ysArr = s.ysArr := by
  simp only [epochBody]
  constructor
  · rw [predictBatch_state]
    exact (sampleLoop_arrs net gamma eta logIdx _ s bufs 0).1
  · rw [predictBatch_state]
    exact (sampleLoop_arrs net gamma eta logIdx _ s bufs 0).2

theorem epochLoop_arrs (net : Network) (gamma eta : ℚ) (shuffle : Bool)
    (perms : Nat → List Nat) (logSteps : List Nat) (rem : Nat) :
    ∀ (i : Nat) (xs ys : List (List ℚ)) (s : TState) (loss : List ℚ) (bufs : Bufs),
      (epochLoop net gamma eta shuffle perms logSteps i rem xs ys s loss bufs).1.xsArr
          = s.xsArr
      ∧ (epochLoop net gamma eta shuffle perms logSteps i rem xs ys s loss bufs).1.ysArr
          = s.ysArr := by
  induction rem with
  | zero => exact fun i xs ys s loss bufs => ⟨rfl, rfl⟩
  | succ rem ih =>
    intro i xs ys s loss bufs
    simp only [epochLoop]
    refine ⟨?_, ?_⟩
    · rw [(ih _ _ _ _ _ _).1]
      exact (epochBody_arrs net gamma eta _ _ _ i s loss bufs).1
    · rw [(ih _ _ _ _ _ _).2]
      exact (epochBody_arrs net gamma eta _ _ _ i s loss bufs).2

/-- Claim C10: train never mutates the caller's xs and ys arrays: after
train returns, the caller's input and target arrays hold exactly the
elements, in exactly the order, they held before the call. -/
theorem c10_caller_arrays_preserved (net : Network) (s : TState) (epochs : Nat)
    (gamma eta l : ℚ) (logSteps? : Option (List Nat)) (shuffle : Bool)
    (perms : Nat → List Nat) :
    (train net s epochs gamma eta l logSteps? shuffle perms).1.xsArr = s.xsArr
    ∧ (train net s epochs gamma eta l logSteps? shuffle perms).1.ysArr = s.ysArr := by
  unfold train
  refine ⟨?_, ?_⟩
  · rw [(epochLoop_arrs net gamma eta shuffle perms _ epochs 0 _ _ _ _ _).1,
      predictBatch_state]
  · rw [(epochLoop_arrs net gamma eta shuffle perms _ epochs 0 _ _ _ _ _).2,
      predictBatch_state]

/-- Claim C6 counterexample: on a concrete invalid configuration —
`epochs = 0` (non-positive) and `xs`/`ys` of different lengths — `train`
does not fail before solving: it performs two equilibrium solves (one
per input sample, for the initial loss) and returns normally. -/
theorem c6_counterexample :
    List.countP isSolveEv
        (train demoNet demoStateMismatch 0 10 (1/10) 0 none true demoPerms).1.trace = 2
    ∧ demoStateMismatch.xsArr.length ≠ demoStateMismatch.ysArr.length := by
  constructor
  · decide
  · decide

/-- Claim C6 (amended): `train` performs no configuration validation.
In particular, with the invalid configuration `epochs = 0` it still
performs one free-phase solve per input sample (for the initial loss
computation), returns a loss history of length 1, and leaves the edge
values unmodified; mismatched `xs`/`ys` lengths are never detected (the
sample loop silently truncates via `zip`). -/
theorem c6_no_validation (net : Network) (gamma eta l : ℚ)
    (logSteps? : Option (List Nat)) (shuffle : Bool) (perms : Nat → List Nat)
    (s : TState) :
    (train net s 0 gamma eta l logSteps? shuffle perms).1.edges = s.edges
    ∧ (train net s 0 gamma eta l logSteps? shuffle perms).2.1.length = 1
    ∧ (train net s 0 gamma eta l logSteps? shuffle perms).1.trace
        = s.trace ++ s.xsArr.map (fun x => Ev.solveEv s.edges x none) := by
  unfold train
  simp only [epochLoop]
  refine ⟨?_, ?_, ?_⟩
  · rw [predictBatch_state]
  · simp
  · rw [predictBatch_state]

theorem epochLoop_no_shuffle (net : Network) (gamma eta : ℚ)
    (perms : Nat → List Nat) (logSteps : List Nat) (rem : Nat) :
    ∀ (i : Nat) (xs ys : List (List ℚ)) (s : TState) (loss : List ℚ) (bufs : Bufs),
      epochLoop net gamma eta false perms logSteps i rem xs ys s loss bufs
        = epochLoopFixed net gamma eta logSteps i rem xs ys s loss bufs := by
  induction rem with
  | zero => intro i xs ys s loss bufs; rfl
  | succ rem ih =>
    intro i xs ys s loss bufs
    simp only [epochLoop, epochLoopFixed, shuffleStep, Bool.false_eq_true, if_false]
    exact ih _ _ _ _ _ _

/-- Claim C7: when shuffle is true, each epoch applies one permutation
jointly to xs and ys, so the pairing of inputs with targets is preserved
(the processed pair list is the permutation of the original zipped
pairs); when shuffle is false, the shuffling step is the identity and the
epoch loop coincides with the reference loop that processes every epoch
in the original input order. -/
theorem c7_shuffle_pairing (p : List Nat) (xs ys : List (List ℚ)) (net : Network)
    (gamma eta : ℚ) (perms : Nat → List Nat) (logSteps : List Nat) (i rem : Nat)
    (s : TState) (loss : List ℚ) (bufs : Bufs) :
    shuffleStep true p xs ys = (applyPerm p xs, applyPerm p ys)
    ∧ List.zip (applyPerm p xs) (applyPerm p ys)
        = p.map (fun k => (xs.getD k [], ys.getD k []))
    ∧ shuffleStep false p xs ys = (xs, ys)
    ∧ epochLoop net gamma eta false perms logSteps i rem xs ys s loss bufs
        = epochLoopFixed net gamma eta logSteps i rem xs ys s loss bufs := by
  refine ⟨rfl, ?_, rfl, epochLoop_no_shuffle net gamma eta perms logSteps rem i xs ys s loss bufs⟩
  unfold applyPerm
  exact List.zip_map' _ _ p

theorem getD_map_const_zero (r : List ℚ) (b : Nat) :
    (r.map (fun t => -(0 : ℚ) * t)).getD b 0 = 0 := by
  induction r generalizing b with
  | nil => rfl
  | cons q rt ih =>
    cases b with
    | zero => simp
    | succ b => simp [ih b]

theorem matScale_zero_entry (M : List (List ℚ)) (a b : Nat) :
    ((matScale (-(0 : ℚ)) M).getD a []).getD b 0 = 0 := by
  unfold matScale
  induction M generalizing a with
  | nil => rfl
  | cons r t ih =>
    cases a with
    | zero =>
      simp only [List.map_cons, List.getD_cons_zero]
      exact getD_map_const_zero r b
    | succ a => simpa using ih a

theorem zipWith_eq_replicate_zero {α β : Type} (f : α → β → ℚ)
    (h : ∀ a b, f a b = 0) :
    ∀ (l1 : List α) (l2 : List β),
      List.zipWith f l1 l2 = List.replicate (min l1.length l2.length) 0 := by
  intro l1
  induction l1 with
  | nil => intro l2; simp
  | cons a t1 ih =>
    intro l2
    cases l2 with
    | nil => simp
    | cons b t2 =>
      simp only [List.zipWith_cons_cons, List.length_cons, Nat.succ_min_succ,
        List.replicate_succ]
      rw [h a b, ih t2]

theorem contrastiveUpdates_gamma_zero (n : Nat) (free clamped : List ℚ)
    (e1 e2 : List Nat) :
    contrastiveUpdates 0 n free clamped e1 e2
      = List.replicate (min e1.length e2.length) 0 := by
  unfold contrastiveUpdates fancyIndex
  exact zipWith_eq_replicate_zero _ (fun a b => matScale_zero_entry _ a b) e1 e2

theorem zipWith_add_replicate_zero (edges : List ℚ) (m : Nat)
    (h : edges.length ≤ m) :
    List.zipWith (fun v d => v + d) edges (List.replicate m 0) = edges := by
  induction edges generalizing m with
  | nil => simp
  | cons a t ih =>
    cases m with
    | zero => simp at h
    | succ m =>
      simp only [List.replicate_succ, List.zipWith_cons_cons]
      rw [ih m (by simpa using h)]
      simp

theorem trainSample_edges_gamma_zero (net : Network) (eta : ℚ) (s : TState)
    (x y : List ℚ) (h : s.edges.length ≤ net.edgeEnds.length) :
    (trainSample net 0 eta s x y).state.edges = s.edges := by
  have h1 : (trainSample net 0 eta s x y).state.edges
      = List.zipWith (fun v d => v + d) s.edges (trainSample net 0 eta s x y).tu := by
    rw [trainSample_state]
  rw [h1, trainSample_tu, contrastiveUpdates_gamma_zero]
  apply zipWith_add_replicate_zero
  rw [Network.e1, Network.e2, List.length_map, List.length_map]
  simpa using h

theorem sampleLoop_edges_gamma_zero (net : Network) (eta : ℚ) (logIdx : Option Nat)
    (pairs : List (List ℚ × List ℚ)) :
    ∀ (s : TState) (bufs : Bufs) (j : Nat), s.edges.length ≤ net.edgeEnds.length →
      (sampleLoop net 0 eta logIdx s bufs j pairs).1.edges = s.edges := by
  induction pairs with
  | nil => intro s bufs j h; rfl
  | cons p t ih =>
    intro s bufs j h
    have he : (trainSample net 0 eta s p.1 p.2).state.edges = s.edges :=
      trainSample_edges_gamma_zero net eta s p.1 p.2 h
    simp only [sampleLoop]
    rw [ih _ _ _ (by rw [he]; exact h), he]

theorem predictBatch_edges (net : Network) (xs : List (List ℚ)) (s : TState) :
    (net.predictBatch s xs).2.edges = s.edges := by
  rw [predictBatch_state]

theorem epochBody_edges_gamma_zero (net : Network) (eta : ℚ) (logIdx : Option Nat)
    (xs ys : List (List ℚ)) (i : Nat) (s : TState) (loss : List ℚ) (bufs : Bufs)
    (h : s.edges.length ≤ net.edgeEnds.length) :
    (epochBody net 0 eta logIdx xs ys i s loss bufs).1.edges = s.edges := by
  simp only [epochBody]
  rw [predictBatch_edges]
  exact sampleLoop_edges_gamma_zero net eta logIdx _ s bufs 0 h

theorem epochLoop_edges_gamma_zero (net : Network) (eta : ℚ) (shuffle : Bool)
    (perms : Nat → List Nat) (logSteps : List Nat) (rem : Nat) :
    ∀ (i : Nat) (xs ys : List (List ℚ)) (s : TState) (loss : List ℚ) (bufs : Bufs),
      s.edges.length ≤ net.edgeEnds.length →
      (epochLoop net 0 eta shuffle perms logSteps i rem xs ys s loss bufs).1.edges
        = s.edges := by
  induction rem with
  | zero => intro i xs ys s loss bufs h; rfl
  | succ rem ih =>
    intro i xs ys s loss bufs h
    have hb := epochBody_edges_gamma_zero net eta
      (if i ∈ logSteps then some (List.indexOf i logSteps) else none)
      (shuffleStep shuffle (perms i) xs ys).1 (shuffleStep shuffle (perms i) xs ys).2
      i s loss bufs h
    simp only [epochLoop]
    rw [ih _ _ _ _ _ _ (by rw [hb]; exact h), hb]

/-- Claim C4: zero-update invariant: for any training data, any number
of epochs, and any other parameter settings, calling train with
`gamma = 0` leaves every edge's value after training equal to its value
before training. -/
theorem c4_zero_gamma (net : Network) (s : TState) (epochs : Nat) (eta l : ℚ)
    (logSteps? : Option (List Nat)) (shuffle : Bool) (perms : Nat → List Nat)
    (h : s.edges.length ≤ net.edgeEnds.length) :
    (train net s epochs 0 eta l logSteps? shuffle perms).1.edges = s.edges := by
  unfold train
  have hp : (net.predictBatch s s.xsArr).2.edges = s.edges :=
    predictBatch_edges net s.xsArr s
  rw [epochLoop_edges_gamma_zero net eta shuffle perms _ epochs 0 _ _ _ _ _
    (by rw [hp]; exact h), hp]

/-- Witness for C4: two epochs of zero-gamma training on the demo
network leave the edge values unchanged. -/
theorem c4_zero_gamma_witness :
    (train demoNet demoState 2 0 (1/10) 0 none true demoPerms).1.edges
      = demoState.edges :=
  c4_zero_gamma demoNet demoState 2 (1/10) 0 none true demoPerms (by decide)

theorem MatShape_replicate (a b c : Nat) :
    MatShape (List.replicate a (List.replicate b (List.replicate c (0 : ℚ)))) a b c := by
  refine ⟨by simp, fun r hr => ?_⟩
  rw [List.eq_of_mem_replicate hr]
  refine ⟨by simp, fun v hv => ?_⟩
  rw [List.eq_of_mem_replicate hv]
  simp

theorem MatShape_set_row (M : List (List (List ℚ))) (a b c k : Nat)
    (r : List (List ℚ)) (h : MatShape M a b c) (hr : r.length = b)
    (hrc : ∀ v ∈ r, v.length = c) : MatShape (M.set k r) a b c := by
  refine ⟨by rw [List.length_set]; exact h.1, fun q hq => ?_⟩
  rcases List.mem_or_eq_of_mem_set hq with hq1 | hq2
  · exact h.2 q hq1
  · subst hq2
    exact ⟨hr, hrc⟩

theorem MatShape_setCell (M : List (List (List ℚ))) (a b c k j : Nat) (v : List ℚ)
    (h : MatShape M a b c) (hv : v.length = c) : MatShape (setCell M k j v) a b c := by
  unfold setCell
  by_cases hk : k < M.length
  · have hmem : M.getD k [] ∈ M := by
      rw [List.getD_eq_getElem M [] hk]
      exact List.getElem_mem hk
    refine MatShape_set_row M a b c k _ h ?_ ?_
    · rw [List.length_set]
      exact (h.2 _ hmem).1
    · intro w hw
      rcases List.mem_or_eq_of_mem_set hw with hw1 | hw2
      · exact (h.2 _ hmem).2 w hw1
      · subst hw2
        exact hv
  · rw [List.set_eq_of_length_le (Nat.le_of_not_lt hk)]
    exact h

theorem trainSample_tu_length (net : Network) (gamma eta : ℚ) (s : TState)
    (x y : List ℚ) :
    (trainSample net gamma eta s x y).tu.length = net.edgeEnds.length := by
  rw [trainSample_tu, contrastiveUpdates_length, Network.e1, Network.e2,
    List.length_map, List.length_map]
  simp

theorem trainSample_edges_length (net : Network) (gamma eta : ℚ) (s : TState)
    (x y : List ℚ) (h : s.edges.length = net.edgeEnds.length) :
    (trainSample net gamma eta s x y).state.edges.length = net.edgeEnds.length := by
  have h1 : (trainSample net gamma eta s x y).state.edges
      = List.zipWith (fun v d => v + d) s.edges (trainSample net gamma eta s x y).tu := by
    rw [trainSample_state]
  rw [h1, List.length_zipWith, h, trainSample_tu_length]
  simp

theorem sampleLoop_shape (net : Network) (gamma eta : ℚ) (logIdx : Option Nat)
    (pairs : List (List ℚ × List ℚ)) (a a' b : Nat) :
    ∀ (s : TState) (bufs : Bufs) (j : Nat),
      s.edges.length = net.edgeEnds.length →
      MatShape bufs.updates a b net.edgeEnds.length →
      MatShape bufs.weights a' b net.edgeEnds.length →
      (sampleLoop net gamma eta logIdx s bufs j pairs).1.edges.length
          = net.edgeEnds.length
      ∧ MatShape (sampleLoop net gamma eta logIdx s bufs j pairs).2.updates
          a b net.edgeEnds.length
      ∧ MatShape (sampleLoop net gamma eta logIdx s bufs j pairs).2.weights
          a' b net.edgeEnds.length := by
  induction pairs with
  | nil => exact fun s bufs j h1 h2 h3 => ⟨h1, h2, h3⟩
  | cons p t ih =>
    intro s bufs j h1 h2 h3
    cases logIdx with
    | none =>
      simp only [sampleLoop]
      exact ih _ _ _ (trainSample_edges_length net gamma eta s p.1 p.2 h1) h2 h3
    | some k =>
      simp only [sampleLoop]
      refine ih _ _ _ (trainSample_edges_length net gamma eta s p.1 p.2 h1) ?_ ?_
      · exact MatShape_setCell _ a b _ k j _ h2 (trainSample_tu_length net gamma eta s p.1 p.2)
      · exact MatShape_setCell _ a' b _ (k+1) j _ h3
          (trainSample_edges_length net gamma eta s p.1 p.2 h1)

theorem epochBody_shape (net : Network) (gamma eta : ℚ) (logIdx : Option Nat)
    (xs ys : List (List ℚ)) (i : Nat) (a a' b L : Nat) (s : TState)
    (loss : List ℚ) (bufs : Bufs) (h1 : s.edges.length = net.edgeEnds.length)
    (h2 : MatShape bufs.updates a b net.edgeEnds.length)
    (h3 : MatShape bufs.weights a' b net.edgeEnds.length) (h4 : loss.length = L) :
    (epochBody net gamma eta logIdx xs ys i s loss bufs).1.edges.length
        = net.edgeEnds.length
    ∧ (epochBody net gamma eta logIdx xs ys i s loss bufs).2.1.length = L
    ∧ MatShape (epochBody net gamma eta logIdx xs ys i s loss bufs).2.2.updates
        a b net.edgeEnds.length
    ∧ MatShape (epochBody net gamma eta logIdx xs ys i s loss bufs).2.2.weights
        a' b net.edgeEnds.length := by
  have hs := sampleLoop_shape net gamma eta logIdx (List.zip xs ys) a a' b s bufs 0 h1 h2 h3
  simp only [epochBody]
  refine ⟨?_, ?_, hs.2.1, hs.2.2⟩
  · rw [predictBatch_edges]
    exact hs.1
  · rw [List.length_set]
    exact h4

theorem epochLoop_shape (net : Network) (gamma eta : ℚ) (shuffle : Bool)
    (perms : Nat → List Nat) (logSteps : List Nat) (a a' b L : Nat) (rem : Nat) :
    ∀ (i : Nat) (xs ys : List (List ℚ)) (s : TState) (loss : List ℚ) (bufs : Bufs),
      s.edges.length = net.edgeEnds.length →
      MatShape bufs.updates a b net.edgeEnds.length →
      MatShape bufs.weights a' b net.edgeEnds.length →
      loss.length = L →
      (epochLoop net gamma eta shuffle perms logSteps i rem xs ys s loss bufs).2.1.length
          = L
      ∧ MatShape
          (epochLoop net gamma eta shuffle perms logSteps i rem xs ys s loss bufs).2.2.updates
          a b net.edgeEnds.length
      ∧ MatShape
          (epochLoop net gamma eta shuffle perms logSteps i rem xs ys s loss bufs).2.2.weights
          a' b net.edgeEnds.length := by
  induction rem with
  | zero => exact fun i xs ys s loss bufs h1 h2 h3 h4 => ⟨h4, h2, h3⟩
  | succ rem ih =>
    intro i xs ys s loss bufs h1 h2 h3 h4
    have hb := epochBody_shape net gamma eta
      (if i ∈ logSteps then some (List.indexOf i logSteps) else none)
      (shuffleStep shuffle (perms i) xs ys).1 (shuffleStep shuffle (perms i) xs ys).2
      i a a' b L s loss bufs h1 h2 h3 h4
    simp only [epochLoop]
    exact ih _ _ _ _ _ _ hb.1 hb.2.2.1 hb.2.2.2 hb.2.1

/-- Claim C5: for every call to train with `n_samples` inputs, `n_edges`
trainable edges, and a checkpoint list of size C (C = epochs when
checkpoints default to every epoch), the returned loss history has length
`epochs+1`, the returned weight history has shape
`(C+1, n_samples, n_edges)`, and the returned update history has shape
`(C, n_samples, n_edges)`. -/
theorem c5_history_shapes (net : Network) (s : TState) (epochs : Nat)
    (gamma eta l : ℚ) (logSteps? : Option (List Nat)) (shuffle : Bool)
    (perms : Nat → List Nat) (he : s.edges.length = net.edgeEnds.length) :
    (train net s epochs gamma eta l logSteps? shuffle perms).2.1.length = epochs + 1
    ∧ MatShape (train net s epochs gamma eta l logSteps? shuffle perms).2.2.1
        (logSteps?.getD (List.range epochs)).length s.xsArr.length net.edgeEnds.length
    ∧ MatShape (train net s epochs gamma eta l logSteps? shuffle perms).2.2.2
        ((logSteps?.getD (List.range epochs)).length + 1) s.xsArr.length
        net.edgeEnds.length
    ∧ (logSteps? = none → (logSteps?.getD (List.range epochs)).length = epochs) := by
  have hW0 : MatShape
      ((List.replicate ((logSteps?.getD (List.range epochs)).length + 1)
          (List.replicate s.xsArr.length (List.replicate net.edgeEnds.length (0 : ℚ)))).set 0
        (List.replicate s.xsArr.length (net.predictBatch s s.xsArr).2.edges))
      ((logSteps?.getD (List.range epochs)).length + 1) s.xsArr.length
      net.edgeEnds.length := by
    refine MatShape_set_row _ _ _ _ 0 _ (MatShape_replicate _ _ _) (by simp) ?_
    intro v hv
    rw [List.eq_of_mem_replicate hv, predictBatch_edges]
    exact he
  have hmain := epochLoop_shape net gamma eta shuffle perms
    (logSteps?.getD (List.range epochs)) (logSteps?.getD (List.range epochs)).length
    ((logSteps?.getD (List.range epochs)).length + 1) s.xsArr.length (epochs + 1)
    epochs 0 s.xsArr s.ysArr (net.predictBatch s s.xsArr).2
    ((List.replicate (epochs + 1) (0 : ℚ)).set 0 (mse s.ysArr (net.predictBatch s s.xsArr).1))
    { updates := List.replicate (logSteps?.getD (List.range epochs)).length
        (List.replicate s.xsArr.length (List.replicate net.edgeEnds.length (0 : ℚ))),
      weights := (List.replicate ((logSteps?.getD (List.range epochs)).length + 1)
          (List.replicate s.xsArr.length (List.replicate net.edgeEnds.length (0 : ℚ)))).set 0
        (List.replicate s.xsArr.length (net.predictBatch s s.xsArr).2.edges) }
    (by rw [predictBatch_edges]; exact he) (MatShape_replicate _ _ _) hW0
    (by rw [List.length_set]; simp)
  refine ⟨?_, ?_, ?_, ?_⟩
  · exact hmain.1
  · exact hmain.2.1
  · exact hmain.2.2
  · intro hnone
    subst hnone
    simp

/-- Witness for C5 on the demo network. -/
theorem c5_history_shapes_witness :
    (train demoNet demoState 2 10 (1/10) 0 none true demoPerms).2.1.length = 2 + 1
    ∧ MatShape (train demoNet demoState 2 10 (1/10) 0 none true demoPerms).2.2.1
        ((none : Option (List Nat)).getD (List.range 2)).length demoState.xsArr.length
        demoNet.edgeEnds.length
    ∧ MatShape (train demoNet demoState 2 10 (1/10) 0 none true demoPerms).2.2.2
        (((none : Option (List Nat)).getD (List.range 2)).length + 1)
        demoState.xsArr.length demoNet.edgeEnds.length
    ∧ ((none : Option (List Nat)) = none
        → ((none : Option (List Nat)).getD (List.range 2)).length = 2) :=
  c5_history_shapes demoNet demoState 2 10 (1/10) 0 none true demoPerms (by decide)

end SpiceTrain
